import Mathlib

/-!
Verification of the cleaning-task bot's core against its specification:
the frequency parser, the due-date engine, the task store operations and
the randomized identifier allocator. Python source is embedded shallowly:
strings are lists of characters, UTC timestamps are integer microsecond
counts, the SQLite task table is a list of task records kept in ascending
id order, raising an exception is an Except/Option failure value, and the
random number generator is an explicit stream of draws.
-/

set_option maxHeartbeats 1000000
set_option maxRecDepth 8000

namespace CleanBot

/-- Whitespace characters of Python's str.strip and of the regex class \s,
restricted to ASCII (all inputs of interest are ASCII). -/
def isPySpace (c : Char) : Bool :=
  c == ' ' || c == '\t' || c == '\n' || c == '\r' || c == '\x0b' || c == '\x0c'

/-- Python str.strip: drop leading and trailing whitespace. -/
def pyStrip (s : List Char) : List Char :=
  ((s.dropWhile isPySpace).reverse.dropWhile isPySpace).reverse

/-- The canonical form parse_frequency_to_days works on: text.strip().lower().
Char.toLower agrees with Python str.lower on the ASCII inputs involved. -/
def stripLower (text : String) : List Char :=
  (pyStrip text.data).map Char.toLower

/-- Value of one decimal digit character. -/
def digitVal (c : Char) : Nat := c.toNat - 48

/-- Python int() on a nonempty all-digit string. -/
def digitsVal (ds : List Char) : Nat :=
  ds.foldl (fun acc c => 10 * acc + digitVal c) 0

/-- The character of a single decimal digit d < 10. -/
def digitChar (d : Nat) : Char := Char.ofNat (48 + d)

/-- Decimal digits of n, most significant first; fuel-based structural
recursion so that it evaluates by kernel reduction. -/
def natDigitsFuel : Nat → Nat → List Char
  | _, 0 => []
  | n, fuel + 1 =>
    if n < 10 then [digitChar n]
    else natDigitsFuel (n / 10) fuel ++ [digitChar (n % 10)]

/-- The decimal string of n (n + 1 is always enough fuel). -/
def natDigits (n : Nat) : List Char := natDigitsFuel n (n + 1)

/-- The maximal digit prefix of s and the remainder: what a greedy leading
regex group match of one or more digits consumes and leaves. -/
def spanDigits : List Char → List Char × List Char
  | [] => ([], [])
  | c :: cs =>
    if c.isDigit then
      let p := spanDigits cs
      (c :: p.1, p.2)
    else ([], c :: cs)

/-- One regex alternative of parse_frequency_to_days: one or more digits,
optional whitespace, then exactly one of the given unit words, anchored at
both ends. Returns the numeric group's value on a match. -/
def matchNumUnit (s : List Char) (units : List String) : Option Nat :=
  let p := spanDigits s
  if p.1 = [] then none
  else if units.any (fun u => p.2.dropWhile isPySpace == u.data) then
    some (digitsVal p.1)
  else none

/-- The source's redundant final alternative, digits then one of d, w, m:
returns the value together with the matched unit so the if-chain after it
can pick the multiplier. -/
def matchNumUnitDWM (s : List Char) : Option (Nat × List Char) :=
  let p := spanDigits s
  if p.1 = [] then none
  else
    let rest := p.2.dropWhile isPySpace
    if rest = "d".data ∨ rest = "w".data ∨ rest = "m".data then
      some (digitsVal p.1, rest)
    else none

/-- parse_frequency_to_days on the stripped, lowercased character list: the
chain of regex alternatives from src/src/utils.py (textually identical in
src/main.py). The regex digit class is modelled as the ASCII digits, as
the whitespace class is restricted to ASCII above. none models raising
ValueError. -/
def parseFreqCore (s : List Char) : Option Nat :=
  if s ≠ [] ∧ s.all Char.isDigit then some (digitsVal s)
  else match matchNumUnit s ["d", "day", "days"] with
  | some n => some n
  | none => match matchNumUnit s ["w", "week", "weeks"] with
    | some n => some (n * 7)
    | none => match matchNumUnit s ["m", "month", "months"] with
      | some n => some (n * 30)
      | none => match matchNumUnitDWM s with
        | some p =>
          some (if p.2 = "d".data then p.1
            else if p.2 = "w".data then p.1 * 7 else p.1 * 30)
        | none => none

/-- parse_frequency_to_days from src/src/utils.py: strip and lowercase the
input, then try the regex alternatives in the source's order. -/
def parse_frequency_to_days (text : String) : Option Nat :=
  parseFreqCore (stripLower text)

/-- The accepted grammar as the specification states it (section 4.1):
a bare digit string, or a digit string followed by optional whitespace and
one unit word, with the unit's day multiplier applied. Stated over the
already stripped and lowercased character list. -/
def specGrammar (s : List Char) (n : Nat) : Prop :=
  (s ≠ [] ∧ (∀ c ∈ s, c.isDigit = true) ∧ digitsVal s = n) ∨
  (∃ ds ws u, s = ds ++ ws ++ u ∧ ds ≠ [] ∧ (∀ c ∈ ds, c.isDigit = true) ∧
    (∀ c ∈ ws, isPySpace c = true) ∧
    ((u ∈ (["d", "day", "days"].map String.data) ∧ n = digitsVal ds) ∨
     (u ∈ (["w", "week", "weeks"].map String.data) ∧ n = digitsVal ds * 7) ∨
     (u ∈ (["m", "month", "months"].map String.data) ∧ n = digitsVal ds * 30)))

/-! ## Due-date engine

Timestamps are UTC instants counted in integer microseconds, the resolution
of Python's datetime; timedelta(days = f) is f * microsecondsPerDay. -/

/-- Microseconds in one day: the exact value of timedelta(days = 1). -/
def microsecondsPerDay : Int := 86400000000

/-- The next-due instant from next_due_text in src/src/utils.py:
last_done + timedelta(days = freq_days). The formatted display string the
source returns alongside it is not modelled. -/
def next_due (last_done freq_days : Int) : Int :=
  last_done + freq_days * microsecondsPerDay

/-- The due test applied to each row by tasks_due_now: nd <= now,
a non-strict comparison. -/
def is_due (last_done freq_days now : Int) : Bool :=
  next_due last_done freq_days ≤ now

/-! ## Task store

A Task mirrors one row of the extended variant's tasks table
(src/src/database.py): id, name, frequency_days, last_done, room, notes,
points. The store is the table's row list, kept in ascending id order,
which is the order every SELECT in the source asks for. last_done is held
as the instant its stored ISO-8601 text denotes. -/

structure Task where
  id : Int
  name : String
  frequency_days : Int
  last_done : Int
  room : String
  notes : String
  points : Int
deriving DecidableEq

/-- An SQLite cell value as the Python layer receives it: an integer, a
text, or a text holding an ISO timestamp (identified with the instant it
denotes). -/
inductive Value where
  | int (n : Int)
  | str (s : String)
  | ts (t : Int)
deriving DecidableEq

/-- The 7-column row the extended variant's SELECT produces for a task:
id, name, frequency_days, last_done, room, notes, points
(src/src/database.py list_tasks_db). -/
def taskRow (t : Task) : List Value :=
  [.int t.id, .str t.name, .int t.frequency_days, .ts t.last_done,
   .str t.room, .str t.notes, .int t.points]

/-- list_tasks_db from src/src/database.py: all rows in id order, filtered
by exact room match when the room argument is truthy (Python `if room:`
treats None and the empty string alike). -/
def list_tasks_db (store : List Task) (room : Option String) : List (List Value) :=
  match room with
  | some r => if r = "" then store.map taskRow
    else (store.filter (fun t => t.room == r)).map taskRow
  | none => store.map taskRow

/-- get_task_db from src/src/database.py: the first row whose id matches,
or nothing. Returned as the task record rather than a raw row. -/
def get_task_db (store : List Task) (task_id : Int) : Option Task :=
  store.find? (fun t => t.id == task_id)

/-- update_task_last_done from src/src/database.py: SQL UPDATE of last_done
on every row whose id matches (a no-op when none does). -/
def update_task_last_done (store : List Task) (task_id : Int) (when : Int) :
    List Task :=
  store.map (fun t => if t.id = task_id then { t with last_done := when } else t)

/-- The field names update_task_field accepts, in the source's order. -/
def allowedTaskFields : List String :=
  ["name", "frequency_days", "room", "notes", "points"]

/-- A value supplied to update_task_field: the callers pass either a text
or an integer. -/
inductive FieldValue where
  | int (n : Int)
  | str (s : String)
deriving DecidableEq

/-- Store the given value into the named column of one task record. Every
caller in the source passes a value of the column's type; a mismatched
pair leaves the record unchanged. -/
def setField (field : String) (v : FieldValue) (t : Task) : Task :=
  match field, v with
  | "name", .str s => { t with name := s }
  | "frequency_days", .int n => { t with frequency_days := n }
  | "room", .str s => { t with room := s }
  | "notes", .str s => { t with notes := s }
  | "points", .int n => { t with points := n }
  | _, _ => t

/-- The SQL UPDATE update_task_field runs once the field name passed its
check: set the column on every row whose id matches. -/
def applyUpdate (store : List Task) (task_id : Int) (field : String)
    (v : FieldValue) : List Task :=
  store.map (fun t => if t.id = task_id then setField field v t else t)

/-- update_task_field from src/src/database.py: raise ValueError for a
field name outside the allowed five, before any store access; otherwise
run the UPDATE. -/
def update_task_field (store : List Task) (task_id : Int) (field : String)
    (v : FieldValue) : Except String (List Task) :=
  if field ∉ allowedTaskFields then .error "Invalid field"
  else .ok (applyUpdate store task_id field v)

/-- remove_task_db from src/src/database.py: SQL DELETE of every row whose
id matches (a no-op when none does). -/
def remove_task_db (store : List Task) (task_id : Int) : List Task :=
  store.filter (fun t => !(t.id == task_id))

/-! ## tasks_due_now (extended variant, src/src/utils.py)

The loop body destructures each row into exactly six targets,
tid, name, freq, last_iso, task_room, notes — Python raises ValueError
("too many values to unpack") on a row of any other length — then parses
last_iso, computes the next-due instant and keeps the row when it is at or
before now. -/

/-- datetime.fromisoformat: defined on the cells that hold a timestamp
text. -/
def fromisoformat : Value → Except String Int
  | .ts t => .ok t
  | _ => .error "invalid isoformat string"

/-- The integer value of a cell, as the timedelta(days = freq) arithmetic
needs it. -/
def asInt : Value → Except String Int
  | .int n => .ok n
  | _ => .error "unsupported operand type"

/-- The row loop of tasks_due_now, over the rows list_tasks_db returned:
unpack six cells, compute the due instant, keep the row (with the instant
appended) when due. The first row that cannot be processed aborts the
whole call, as a raised exception does. -/
def dueLoop (now : Int) : List (List Value) → Except String (List (List Value))
  | [] => .ok []
  | row :: rest =>
    match row with
    | [tid, name, freq, last_iso, task_room, notes] =>
      match fromisoformat last_iso, asInt freq with
      | .ok last, .ok f =>
        let nd := next_due last f
        match dueLoop now rest with
        | .ok due =>
          .ok (if nd ≤ now then
            (tid :: name :: freq :: last_iso :: task_room :: notes ::
              [Value.ts nd]) :: due
          else due)
        | .error e => .error e
      | .error e, _ => .error e
      | .ok _, .error e => .error e
    | _ => .error "too many values to unpack"

/-- tasks_due_now from src/src/utils.py: fetch the (optionally
room-filtered) rows and run the loop at the current instant. -/
def tasks_due_now (store : List Task) (room : Option String) (now : Int) :
    Except String (List (List Value)) :=
  dueLoop now (list_tasks_db store room)

/-! ## Identifier allocator (src/src/database.py _generate_unique_id)

The loop draws random.randint(100, 999) up to 100 times and returns the
first draw not among the existing ids; exhausting the budget raises
RuntimeError, modelled as none. The random stream is explicit: draws i is
the value the i-th call of randint would produce. -/

/-- The retry loop: attempt index i, remaining budget as fuel. -/
def genIdLoop (existing_ids : List Int) (draws : Nat → Int) :
    Nat → Nat → Option Int
  | _, 0 => none
  | i, fuel + 1 =>
    let new_id := draws i
    if new_id ∉ existing_ids then some new_id
    else genIdLoop existing_ids draws (i + 1) fuel

/-- _generate_unique_id: 100 attempts starting at the stream's head. -/
def generate_unique_id (existing_ids : List Int) (draws : Nat → Int) :
    Option Int :=
  genIdLoop existing_ids draws 0 100

/-- N sequential allocations with no removals, as repeated add_task_db
calls produce them: each allocation reads the ids present at its time, and
the id it returns is inserted before the next one runs. Each allocation
consumes its own random stream. -/
def allocateSeq (existing : List Int) : List (Nat → Int) → Option (List Int)
  | [] => some []
  | d :: dl =>
    (generate_unique_id existing d).bind (fun new_id =>
      (allocateSeq (new_id :: existing) dl).map (fun ids => new_id :: ids))

/-- The store holding every id of [100, 999], for the exhaustion witness. -/
def allIds900 : List Int := (List.range 900).map (fun (k : Nat) => 100 + (k : Int))

/-- What "mutates exactly one field" means for one task record: the id and
last_done columns are untouched, every column other than the named one is
untouched, and a record whose id did not match is untouched entirely. -/
def agreesExcept (task_id : Int) (field : String) (t t' : Task) : Prop :=
  t'.id = t.id ∧ t'.last_done = t.last_done ∧
  (field ≠ "name" → t'.name = t.name) ∧
  (field ≠ "frequency_days" → t'.frequency_days = t.frequency_days) ∧
  (field ≠ "room" → t'.room = t.room) ∧
  (field ≠ "notes" → t'.notes = t.notes) ∧
  (field ≠ "points" → t'.points = t.points) ∧
  (t.id ≠ task_id → t' = t)

/-- A concrete task record, for the closed witnesses. -/
def demoTask : Task :=
  { id := 100, name := "Clean bathroom", frequency_days := 3, last_done := 0,
    room := "bathroom", notes := "", points := 1 }

/-! ## Allocator lemmas -/

/-- A successful retry loop returns one of the stream's draws, and one that
is not among the existing ids. -/
theorem genIdLoop_some (ex : List Int) (draws : Nat → Int) :
    ∀ fuel i new_id, genIdLoop ex draws i fuel = some new_id →
      new_id ∉ ex ∧ ∃ j, new_id = draws j := by
  intro fuel
  induction fuel with
  | zero => intro i new_id h; simp [genIdLoop] at h
  | succ fuel ih =>
    intro i new_id h
    simp only [genIdLoop] at h
    by_cases hmem : draws i ∉ ex
    · rw [if_pos hmem] at h
      cases h
      exact ⟨hmem, i, rfl⟩
    · rw [if_neg hmem] at h
      exact ih (i + 1) new_id h

/-- Sequential allocations: every id produced is fresh relative to the
initial store, within range when the streams stay within randint's range,
and the whole batch has no duplicates. -/
theorem allocateSeq_spec (draws : List (Nat → Int)) :
    ∀ existing ids, (∀ d ∈ draws, ∀ i, 100 ≤ d i ∧ d i ≤ 999) →
      allocateSeq existing draws = some ids →
      ids.Nodup ∧ ∀ new_id ∈ ids, new_id ∉ existing ∧ 100 ≤ new_id ∧ new_id ≤ 999 := by
  induction draws with
  | nil =>
    intro existing ids _ h
    simp only [allocateSeq, Option.some.injEq] at h
    subst h
    simp
  | cons d dl ih =>
    intro existing ids hr h
    simp only [allocateSeq] at h
    cases h1 : generate_unique_id existing d with
    | none => simp [h1] at h
    | some new_id =>
      rw [h1] at h
      simp only [Option.some_bind] at h
      cases h2 : allocateSeq (new_id :: existing) dl with
      | none => simp [h2] at h
      | some ids' =>
        rw [h2] at h
        simp only [Option.map_some', Option.some.injEq] at h
        subst h
        obtain ⟨hfresh, j, hj⟩ := genIdLoop_some existing d 100 0 new_id h1
        have hrange := hr d (List.mem_cons_self d dl) j
        obtain ⟨hnd, htail⟩ :=
          ih (new_id :: existing) ids' (fun x hx => hr x (List.mem_cons_of_mem d hx)) h2
        refine ⟨List.nodup_cons.mpr ⟨fun hin => ?_, hnd⟩, ?_⟩
        · exact (htail new_id hin).1 (List.mem_cons_self new_id existing)
        · intro x hx
          rcases List.mem_cons.mp hx with hx | hx
          · subst hx
            exact ⟨hfresh, by rw [hj]; exact hrange.1, by rw [hj]; exact hrange.2⟩
          · obtain ⟨hnot, hlo, hhi⟩ := htail x hx
            exact ⟨fun hc => hnot (List.mem_cons_of_mem _ hc), hlo, hhi⟩

/-- When every id of randint's range is already present, every draw is
rejected and the loop runs out of budget. -/
theorem genIdLoop_exhausted (ex : List Int) (draws : Nat → Int)
    (hex : ∀ n : Int, 100 ≤ n → n ≤ 999 → n ∈ ex)
    (hdr : ∀ i, 100 ≤ draws i ∧ draws i ≤ 999) :
    ∀ fuel i, genIdLoop ex draws i fuel = none := by
  intro fuel
  induction fuel with
  | zero => intro i; rfl
  | succ fuel ih =>
    intro i
    have hmem : draws i ∈ ex := hex (draws i) (hdr i).1 (hdr i).2
    simp only [genIdLoop]
    rw [if_neg (by simp [hmem])]
    exact ih (i + 1)

/-! ## Claim theorems (first group) -/

/-- C1: is_due(last_done, frequency_days, now) holds iff
now - last_done >= frequency_days days, and the comparison is non-strict:
a task whose next-due instant equals now exactly counts as due. -/
theorem is_due_iff_elapsed (last_done freq_days now : Int) :
    (is_due last_done freq_days now = true ↔
      now - last_done ≥ freq_days * microsecondsPerDay) ∧
    is_due last_done freq_days (last_done + freq_days * microsecondsPerDay) = true := by
  constructor
  · simp only [is_due, next_due, decide_eq_true_eq]
    constructor
    · intro h; omega
    · intro h; omega
  · simp [is_due, next_due]

/-- C2: the extended variant's tasks_due_now fails on every nonempty task
set: list_tasks_db returns 7-column rows (points included) while the loop
destructures 6 targets, so the first row raises ValueError; only the empty
store returns a (trivial) due list. -/
theorem tasks_due_now_unpack_failure :
    (∀ (t : Task) (rest : List Task) (now : Int),
      tasks_due_now (t :: rest) none now = .error "too many values to unpack") ∧
    (∀ (room : Option String) (now : Int), tasks_due_now [] room now = .ok []) := by
  constructor
  · intro t rest now; rfl
  · intro room now
    cases room with
    | none => rfl
    | some r => simp [tasks_due_now, list_tasks_db, dueLoop]

/-- C4: every id the allocator returns is within [100, 999] and absent
from the store at allocation time; hence N sequential allocations with no
removals produce pairwise-distinct ids. -/
theorem allocate_id_fresh_and_distinct (existing : List Int)
    (draws : List (Nat → Int))
    (hr : ∀ d ∈ draws, ∀ i, 100 ≤ d i ∧ d i ≤ 999) :
    (∀ d ∈ draws, ∀ new_id, generate_unique_id existing d = some new_id →
      100 ≤ new_id ∧ new_id ≤ 999 ∧ new_id ∉ existing) ∧
    (∀ ids, allocateSeq existing draws = some ids →
      ids.Nodup ∧ ∀ new_id ∈ ids, new_id ∉ existing) := by
  constructor
  · intro d hd new_id h
    obtain ⟨hfresh, j, hj⟩ := genIdLoop_some existing d 100 0 new_id h
    have := hr d hd j
    exact ⟨by rw [hj]; exact this.1, by rw [hj]; exact this.2, hfresh⟩
  · intro ids h
    obtain ⟨hnd, hall⟩ := allocateSeq_spec draws existing ids hr h
    exact ⟨hnd, fun x hx => (hall x hx).1⟩

/-- Witness for C4: two sequential allocations on an empty store, with
streams that force a retry, give distinct in-range fresh ids. -/
theorem allocate_id_fresh_and_distinct_witness :
    allocateSeq [] [fun _ => 100, fun i => if i = 0 then 100 else 101] =
      some [100, 101] ∧ [(100 : Int), 101].Nodup := by
  have h := allocate_id_fresh_and_distinct []
    [fun _ => 100, fun i => if i = 0 then 100 else 101]
    (by
      intro d hd i
      rcases List.mem_cons.mp hd with h | h
      · subst h; exact ⟨by norm_num, by norm_num⟩
      · rcases List.mem_cons.mp h with h | h
        · subst h
          by_cases hi : i = 0 <;> simp [hi]
        · cases h)
  have halloc : allocateSeq []
      [fun _ => (100 : Int), fun i => if i = 0 then 100 else 101] =
      some [100, 101] := by decide
  exact ⟨halloc, (h.2 [100, 101] halloc).1⟩

/-- C5: with all 900 ids of [100, 999] already present, the allocator
fails after its fixed 100-attempt budget, for every possible sequence of
in-range random draws. -/
theorem allocation_exhausted (existing : List Int) (draws : Nat → Int)
    (hex : ∀ n : Int, 100 ≤ n → n ≤ 999 → n ∈ existing)
    (hdr : ∀ i, 100 ≤ draws i ∧ draws i ≤ 999) :
    generate_unique_id existing draws = none :=
  genIdLoop_exhausted existing draws hex hdr 100 0

/-- Witness for C5: the concrete full store of the 900 ids, with a
constant draw stream. -/
theorem allocation_exhausted_witness :
    generate_unique_id allIds900 (fun _ => 100) = none := by
  refine allocation_exhausted allIds900 (fun _ => 100) ?_ ?_
  · intro n h1 h2
    unfold allIds900
    rw [List.mem_map]
    have h4 : (n - 100).toNat ∈ List.range 900 := List.mem_range.mpr (by omega)
    have h5 : 100 + ((n - 100).toNat : Int) = n := by omega
    exact ⟨(n - 100).toNat, h4, h5⟩
  · intro i
    exact ⟨by norm_num, by norm_num⟩

/-! ## Parser lemmas -/

/-- Arithmetic facts about the ten digit characters. -/
theorem digitChar_facts : ∀ d : Nat, d < 10 →
    (digitChar d).isDigit = true ∧ Char.toLower (digitChar d) = digitChar d ∧
    isPySpace (digitChar d) = false ∧ digitVal (digitChar d) = d := by decide

/-- A whitespace character is not a digit. -/
theorem isPySpace_not_digit (c : Char) (h : isPySpace c = true) :
    c.isDigit = false := by
  simp only [isPySpace, Bool.or_eq_true, beq_iff_eq] at h
  rcases h with ((((rfl | rfl) | rfl) | rfl) | rfl) | rfl <;> decide

/-- Appending one digit multiplies the accumulated value by ten. -/
theorem digitsVal_append_singleton (xs : List Char) (c : Char) :
    digitsVal (xs ++ [c]) = 10 * digitsVal xs + digitVal c := by
  unfold digitsVal
  rw [List.foldl_append]
  rfl

/-- The decimal string of n is nonempty, consists of digit characters, and
evaluates back to n. -/
theorem natDigitsFuel_spec : ∀ fuel n, n < fuel →
    natDigitsFuel n fuel ≠ [] ∧
    (∀ c ∈ natDigitsFuel n fuel, ∃ d, d < 10 ∧ c = digitChar d) ∧
    digitsVal (natDigitsFuel n fuel) = n := by
  intro fuel
  induction fuel with
  | zero => intro n h; exact absurd h (Nat.not_lt_zero n)
  | succ fuel ih =>
    intro n h
    simp only [natDigitsFuel]
    by_cases h10 : n < 10
    · rw [if_pos h10]
      refine ⟨by simp, ?_, ?_⟩
      · intro c hc
        rw [List.mem_singleton] at hc
        exact ⟨n, h10, hc⟩
      · have hv := (digitChar_facts n h10).2.2.2
        simp [digitsVal, hv]
    · rw [if_neg h10]
      have hn : n / 10 < fuel := by omega
      obtain ⟨hne, hdig, hval⟩ := ih (n / 10) hn
      refine ⟨by simp [hne], ?_, ?_⟩
      · intro c hc
        rcases List.mem_append.mp hc with hc | hc
        · exact hdig c hc
        · rw [List.mem_singleton] at hc
          exact ⟨n % 10, Nat.mod_lt n (by norm_num), hc⟩
      · rw [digitsVal_append_singleton, hval,
          (digitChar_facts (n % 10) (Nat.mod_lt n (by norm_num))).2.2.2]
        omega

/-- natDigits n is a nonempty digit string evaluating to n, whose
characters are fixed by lowercasing and are not whitespace. -/
theorem natDigits_spec (n : Nat) :
    natDigits n ≠ [] ∧
    (∀ c ∈ natDigits n, c.isDigit = true ∧ Char.toLower c = c ∧
      isPySpace c = false) ∧
    digitsVal (natDigits n) = n := by
  obtain ⟨hne, hdig, hval⟩ := natDigitsFuel_spec (n + 1) n (Nat.lt_succ_self n)
  refine ⟨hne, ?_, hval⟩
  intro c hc
  obtain ⟨d, hd, rfl⟩ := hdig c hc
  obtain ⟨h1, h2, h3, _⟩ := digitChar_facts d hd
  exact ⟨h1, h2, h3⟩

/-- The digit scan consumes exactly a digit prefix when what follows does
not start with a digit. -/
theorem spanDigits_append (ds rest : List Char)
    (hds : ∀ c ∈ ds, c.isDigit = true)
    (hrest : ∀ c, rest.head? = some c → c.isDigit = false) :
    spanDigits (ds ++ rest) = (ds, rest) := by
  induction ds with
  | nil =>
    rw [List.nil_append]
    cases rest with
    | nil => rfl
    | cons c cs =>
      have hc := hrest c rfl
      simp [spanDigits, hc]
  | cons a ds ih =>
    rw [List.cons_append]
    have ha := hds a (List.mem_cons_self a ds)
    have hih := ih (fun c hc => hds c (List.mem_cons_of_mem a hc))
    simp [spanDigits, ha, hih]

/-- The two parts of the digit scan reassemble the input. -/
theorem spanDigits_join : ∀ s : List Char, (spanDigits s).1 ++ (spanDigits s).2 = s := by
  intro s
  induction s with
  | nil => rfl
  | cons c cs ih =>
    by_cases hc : c.isDigit
    · simp [spanDigits, hc, ih]
    · simp [spanDigits, hc]

/-- Everything the digit scan consumed is a digit. -/
theorem spanDigits_digits : ∀ s : List Char, ∀ c ∈ (spanDigits s).1, c.isDigit = true := by
  intro s
  induction s with
  | nil => intro c hc; cases hc
  | cons a cs ih =>
    intro c hc
    by_cases ha : a.isDigit
    · simp only [spanDigits, if_pos ha] at hc
      rcases List.mem_cons.mp hc with rfl | hc
      · exact ha
      · exact ih c hc
    · simp only [spanDigits, if_neg ha] at hc
      cases hc

/-- Dropping whitespace after a whitespace run stops at the first
non-whitespace character. -/
theorem dropWhile_ws_append (ws u : List Char)
    (hws : ∀ c ∈ ws, isPySpace c = true)
    (hu : ∀ c, u.head? = some c → isPySpace c = false) :
    (ws ++ u).dropWhile isPySpace = u := by
  induction ws with
  | nil =>
    rw [List.nil_append]
    cases u with
    | nil => rfl
    | cons c cs =>
      have hc := hu c rfl
      simp [List.dropWhile_cons, hc]
  | cons a ws ih =>
    rw [List.cons_append, List.dropWhile_cons,
      if_pos (hws a (List.mem_cons_self a ws))]
    exact ih (fun c hc => hws c (List.mem_cons_of_mem a hc))

/-- Dropping with a predicate no element satisfies keeps the list. -/
theorem dropWhile_eq_self (p : Char → Bool) :
    ∀ l : List Char, (∀ c ∈ l, p c = false) → l.dropWhile p = l := by
  intro l h
  cases l with
  | nil => rfl
  | cons c cs =>
    rw [List.dropWhile_cons, if_neg (by simp [h c (List.mem_cons_self c cs)])]

/-- Stripping a string with no whitespace at all is the identity. -/
theorem pyStrip_eq_self (l : List Char) (h : ∀ c ∈ l, isPySpace c = false) :
    pyStrip l = l := by
  unfold pyStrip
  rw [dropWhile_eq_self _ l h,
    dropWhile_eq_self _ l.reverse (fun c hc => h c (List.mem_reverse.mp hc)),
    List.reverse_reverse]

/-- Mapping a function that fixes every element is the identity. -/
theorem map_id_of (f : Char → Char) :
    ∀ l : List Char, (∀ c ∈ l, f c = c) → l.map f = l := by
  intro l
  induction l with
  | nil => intro _; rfl
  | cons a l ih =>
    intro h
    rw [List.map_cons, h a (List.mem_cons_self a l),
      ih (fun c hc => h c (List.mem_cons_of_mem a hc))]

/-- The head of an appended whitespace run and unit is not a digit. -/
theorem head_not_digit (ws u : List Char)
    (hws : ∀ c ∈ ws, isPySpace c = true)
    (hu : ∀ c, u.head? = some c → c.isDigit = false) :
    ∀ c, (ws ++ u).head? = some c → c.isDigit = false := by
  cases ws with
  | nil => intro c h; exact hu c h
  | cons a ws =>
    intro c h
    rw [List.cons_append] at h
    injection h with h
    rw [← h]
    exact isPySpace_not_digit a (hws a (List.mem_cons_self a ws))

/-- Evaluation of one regex alternative once the digit scan is known. -/
theorem matchNumUnit_eq (s ds rest : List Char) (units : List String)
    (hspan : spanDigits s = (ds, rest)) (hne : ds ≠ []) :
    matchNumUnit s units =
      if units.any (fun x => rest.dropWhile isPySpace == x.data) then
        some (digitsVal ds)
      else none := by
  unfold matchNumUnit
  rw [hspan]
  simp [hne]

/-- Evaluation of the redundant final alternative once the digit scan is
known. -/
theorem matchNumUnitDWM_eq (s ds rest : List Char)
    (hspan : spanDigits s = (ds, rest)) (hne : ds ≠ []) :
    matchNumUnitDWM s =
      (if rest.dropWhile isPySpace = "d".data ∨
          rest.dropWhile isPySpace = "w".data ∨
          rest.dropWhile isPySpace = "m".data then
        some (digitsVal ds, rest.dropWhile isPySpace)
      else none) := by
  unfold matchNumUnitDWM
  rw [hspan]
  simp [hne]

/-- A list with one non-digit member fails the all-digits test. -/
theorem all_digits_false (l : List Char) (c : Char) (hc : c ∈ l)
    (hd : c.isDigit = false) : l.all Char.isDigit = false := by
  cases hb : l.all Char.isDigit with
  | false => rfl
  | true =>
    have := List.all_eq_true.mp hb c hc
    rw [this] at hd
    exact absurd hd (by simp)

/-- The first alternative: a bare nonempty digit string parses to its
value. -/
theorem parseFreqCore_digits (ds : List Char) (hne : ds ≠ [])
    (hdig : ∀ c ∈ ds, c.isDigit = true) :
    parseFreqCore ds = some (digitsVal ds) := by
  unfold parseFreqCore
  rw [if_pos ⟨hne, List.all_eq_true.mpr hdig⟩]

/-- Full evaluation of the alternative chain on a canonical
digits-whitespace-unit input, for a unit starting with a non-space
non-digit character. -/
theorem parseFreqCore_canon (ds ws : List Char) (u : String)
    (hne : ds ≠ []) (hdig : ∀ c ∈ ds, c.isDigit = true)
    (hws : ∀ c ∈ ws, isPySpace c = true)
    (c0 : Char) (rest0 : List Char) (hu : u.data = c0 :: rest0)
    (h1 : isPySpace c0 = false) (h2 : c0.isDigit = false) :
    parseFreqCore (ds ++ ws ++ u.data) =
      if (["d", "day", "days"] : List String).any (fun x => u.data == x.data) then
        some (digitsVal ds)
      else if (["w", "week", "weeks"] : List String).any (fun x => u.data == x.data) then
        some (digitsVal ds * 7)
      else if (["m", "month", "months"] : List String).any (fun x => u.data == x.data) then
        some (digitsVal ds * 30)
      else if u.data = "d".data ∨ u.data = "w".data ∨ u.data = "m".data then
        some (if u.data = "d".data then digitsVal ds
          else if u.data = "w".data then digitsVal ds * 7 else digitsVal ds * 30)
      else none := by
  have hh1 : ∀ c, u.data.head? = some c → isPySpace c = false := by
    rw [hu]
    intro c h
    injection h with h
    rw [← h]
    exact h1
  have hh2 : ∀ c, u.data.head? = some c → c.isDigit = false := by
    rw [hu]
    intro c h
    injection h with h
    rw [← h]
    exact h2
  have hspan : spanDigits (ds ++ ws ++ u.data) = (ds, ws ++ u.data) := by
    rw [List.append_assoc]
    exact spanDigits_append ds (ws ++ u.data) hdig (head_not_digit ws u.data hws hh2)
  have hdrop : (ws ++ u.data).dropWhile isPySpace = u.data :=
    dropWhile_ws_append ws u.data hws hh1
  have hc0mem : c0 ∈ ds ++ ws ++ u.data := by
    refine List.mem_append.mpr (Or.inr ?_)
    rw [hu]
    exact List.mem_cons_self c0 rest0
  have hallf := all_digits_false _ c0 hc0mem h2
  have hnot : ¬ (ds ++ ws ++ u.data ≠ [] ∧
      (ds ++ ws ++ u.data).all Char.isDigit) := by
    intro hcon
    rw [hallf] at hcon
    simp at hcon
  unfold parseFreqCore
  rw [if_neg hnot,
    matchNumUnit_eq _ ds (ws ++ u.data) _ hspan hne,
    matchNumUnit_eq _ ds (ws ++ u.data) _ hspan hne,
    matchNumUnit_eq _ ds (ws ++ u.data) _ hspan hne,
    matchNumUnitDWM_eq _ ds (ws ++ u.data) hspan hne, hdrop]
  by_cases hC1 : (["d", "day", "days"] : List String).any (fun x => u.data == x.data)
  · rw [if_pos hC1, if_pos hC1]
  · rw [if_neg hC1, if_neg hC1]
    by_cases hC2 : (["w", "week", "weeks"] : List String).any (fun x => u.data == x.data)
    · rw [if_pos hC2, if_pos hC2]
    · rw [if_neg hC2, if_neg hC2]
      by_cases hC3 : (["m", "month", "months"] : List String).any (fun x => u.data == x.data)
      · rw [if_pos hC3, if_pos hC3]
      · rw [if_neg hC3, if_neg hC3]
        by_cases hC4 : u.data = "d".data ∨ u.data = "w".data ∨ u.data = "m".data
        · rw [if_pos hC4, if_pos hC4]
        · rw [if_neg hC4, if_neg hC4]

/-- Inversion of one regex alternative: a match decomposes the input into
digits, whitespace and one of the unit words. -/
theorem matchNumUnit_inv (s : List Char) (units : List String) (k : Nat)
    (h : matchNumUnit s units = some k) :
    ∃ ds ws u, u ∈ units ∧ s = ds ++ ws ++ u.data ∧ ds ≠ [] ∧
      (∀ c ∈ ds, c.isDigit = true) ∧ (∀ c ∈ ws, isPySpace c = true) ∧
      k = digitsVal ds := by
  have hjoin := spanDigits_join s
  have hdigs := spanDigits_digits s
  cases hsp : spanDigits s with
  | mk ds rest =>
    rw [hsp] at hjoin hdigs
    by_cases hne : ds = []
    · unfold matchNumUnit at h
      rw [hsp] at h
      simp [hne] at h
    · rw [matchNumUnit_eq s ds rest units hsp hne] at h
      by_cases hcond : units.any (fun x => rest.dropWhile isPySpace == x.data)
      · rw [if_pos hcond] at h
        obtain ⟨x, hx, hbeq⟩ := List.any_eq_true.mp hcond
        have hxd : rest.dropWhile isPySpace = x.data := beq_iff_eq.mp hbeq
        refine ⟨ds, rest.takeWhile isPySpace, x, hx, ?_, hne, hdigs, ?_, ?_⟩
        · rw [List.append_assoc, ← hxd, List.takeWhile_append_dropWhile]
          exact hjoin.symm
        · intro c hc
          exact List.mem_takeWhile_imp hc
        · injection h with h
          exact h.symm
      · rw [if_neg hcond] at h
        exact absurd h (by simp)

/-- Inversion of the redundant final alternative. -/
theorem matchNumUnitDWM_inv (s : List Char) (k : Nat) (u : List Char)
    (h : matchNumUnitDWM s = some (k, u)) :
    (u = "d".data ∨ u = "w".data ∨ u = "m".data) ∧
    ∃ ds ws, s = ds ++ ws ++ u ∧ ds ≠ [] ∧ (∀ c ∈ ds, c.isDigit = true) ∧
      (∀ c ∈ ws, isPySpace c = true) ∧ k = digitsVal ds := by
  have hjoin := spanDigits_join s
  have hdigs := spanDigits_digits s
  cases hsp : spanDigits s with
  | mk ds rest =>
    rw [hsp] at hjoin hdigs
    by_cases hne : ds = []
    · unfold matchNumUnitDWM at h
      rw [hsp] at h
      simp [hne] at h
    · rw [matchNumUnitDWM_eq s ds rest hsp hne] at h
      by_cases hcond : rest.dropWhile isPySpace = "d".data ∨
          rest.dropWhile isPySpace = "w".data ∨ rest.dropWhile isPySpace = "m".data
      · rw [if_pos hcond] at h
        injection h with h
        have hk : digitsVal ds = k := congrArg Prod.fst h
        have hu : rest.dropWhile isPySpace = u := congrArg Prod.snd h
        rw [hu] at hcond
        refine ⟨hcond, ds, rest.takeWhile isPySpace, ?_, hne, hdigs, ?_, hk.symm⟩
        · rw [List.append_assoc, ← hu, List.takeWhile_append_dropWhile]
          exact hjoin.symm
        · intro c hc
          exact List.mem_takeWhile_imp hc
      · rw [if_neg hcond] at h
        exact absurd h (by simp)

/-- Completeness of the alternative chain: a successful parse means the
input was in the accepted grammar, with the matching multiplier. -/
theorem parseFreqCore_complete (s : List Char) (n : Nat)
    (h : parseFreqCore s = some n) : specGrammar s n := by
  unfold parseFreqCore at h
  by_cases h0 : s ≠ [] ∧ s.all Char.isDigit
  · rw [if_pos h0] at h
    injection h with h
    exact Or.inl ⟨h0.1, List.all_eq_true.mp h0.2, h⟩
  · rw [if_neg h0] at h
    cases h1 : matchNumUnit s ["d", "day", "days"] with
    | some k =>
      rw [h1] at h
      have h' : some k = some n := h
      injection h' with h'
      obtain ⟨ds, ws, u, hu, hseq, hne, hdig, hws, hk⟩ := matchNumUnit_inv s _ k h1
      refine Or.inr ⟨ds, ws, u.data, hseq, hne, hdig, hws,
        Or.inl ⟨List.mem_map_of_mem String.data hu, ?_⟩⟩
      rw [← h', hk]
    | none =>
    rw [h1] at h
    cases h2 : matchNumUnit s ["w", "week", "weeks"] with
    | some k =>
      rw [h2] at h
      have h' : some (k * 7) = some n := h
      injection h' with h'
      obtain ⟨ds, ws, u, hu, hseq, hne, hdig, hws, hk⟩ := matchNumUnit_inv s _ k h2
      refine Or.inr ⟨ds, ws, u.data, hseq, hne, hdig, hws,
        Or.inr (Or.inl ⟨List.mem_map_of_mem String.data hu, ?_⟩)⟩
      rw [← h', hk]
    | none =>
    rw [h2] at h
    cases h3 : matchNumUnit s ["m", "month", "months"] with
    | some k =>
      rw [h3] at h
      have h' : some (k * 30) = some n := h
      injection h' with h'
      obtain ⟨ds, ws, u, hu, hseq, hne, hdig, hws, hk⟩ := matchNumUnit_inv s _ k h3
      refine Or.inr ⟨ds, ws, u.data, hseq, hne, hdig, hws,
        Or.inr (Or.inr ⟨List.mem_map_of_mem String.data hu, ?_⟩)⟩
      rw [← h', hk]
    | none =>
    rw [h3] at h
    cases h4 : matchNumUnitDWM s with
    | some p =>
      cases p with
      | mk k u =>
        rw [h4] at h
        have h' : some (if u = "d".data then k
            else if u = "w".data then k * 7 else k * 30) = some n := h
        injection h' with h'
        obtain ⟨hdu, ds, ws, hseq, hne, hdig, hws, hk⟩ := matchNumUnitDWM_inv s k u h4
        subst hk
        rcases hdu with rfl | rfl | rfl
        · rw [if_pos rfl] at h'
          exact Or.inr ⟨ds, ws, "d".data, hseq, hne, hdig, hws,
            Or.inl ⟨by decide, h'.symm⟩⟩
        · rw [if_neg (by decide), if_pos rfl] at h'
          exact Or.inr ⟨ds, ws, "w".data, hseq, hne, hdig, hws,
            Or.inr (Or.inl ⟨by decide, h'.symm⟩)⟩
        · rw [if_neg (by decide), if_neg (by decide)] at h'
          exact Or.inr ⟨ds, ws, "m".data, hseq, hne, hdig, hws,
            Or.inr (Or.inr ⟨by decide, h'.symm⟩)⟩
    | none =>
      rw [h4] at h
      simp at h

/-! ## Store lemmas -/

/-- setField never changes the id column. -/
theorem setField_id (field : String) (v : FieldValue) (t : Task) :
    (setField field v t).id = t.id := by
  unfold setField
  split <;> rfl

/-- Pointwise relation between a list and its map. -/
theorem forall₂_map_self {α : Type} {R : α → α → Prop} (f : α → α) :
    ∀ l : List α, (∀ x ∈ l, R x (f x)) → List.Forall₂ R l (l.map f) := by
  intro l
  induction l with
  | nil => intro _; exact List.Forall₂.nil
  | cons a l ih =>
    intro h
    exact List.Forall₂.cons (h a (List.mem_cons_self a l))
      (ih (fun x hx => h x (List.mem_cons_of_mem a hx)))

/-- The UPDATE's per-record action satisfies agreesExcept for every
allowed field name. -/
theorem agreesExcept_apply (task_id : Int) (v : FieldValue) (t : Task) :
    ∀ field ∈ allowedTaskFields,
      agreesExcept task_id field t
        (if t.id = task_id then setField field v t else t) := by
  intro field hf
  by_cases hid : t.id = task_id
  · rw [if_pos hid]
    simp only [allowedTaskFields, List.mem_cons, List.not_mem_nil, or_false] at hf
    rcases hf with rfl | rfl | rfl | rfl | rfl <;> cases v <;>
      refine ⟨rfl, rfl, ?_, ?_, ?_, ?_, ?_, ?_⟩ <;> intro h <;>
      first
        | rfl
        | exact absurd rfl h
        | exact absurd hid h
  · rw [if_neg hid]
    exact ⟨rfl, rfl, fun _ => rfl, fun _ => rfl, fun _ => rfl, fun _ => rfl,
      fun _ => rfl, fun _ => rfl⟩

/-- Looking up the updated id after the UPDATE finds the updated record. -/
theorem get_applyUpdate_self (task_id : Int) (field : String) (v : FieldValue) :
    ∀ (store : List Task) (t : Task), get_task_db store task_id = some t →
      get_task_db (applyUpdate store task_id field v) task_id =
        some (setField field v t) := by
  intro store
  induction store with
  | nil => intro t h; simp [get_task_db] at h
  | cons a l ih =>
    intro t h
    by_cases ha : a.id = task_id
    · rw [get_task_db, List.find?_cons_of_pos _ (by simp [ha])] at h
      injection h with h
      subst h
      rw [applyUpdate, List.map_cons, if_pos ha, get_task_db,
        List.find?_cons_of_pos _ (by simp [setField_id, ha])]
    · rw [get_task_db, List.find?_cons_of_neg _ (by simp [ha])] at h
      rw [applyUpdate, List.map_cons, if_neg ha, get_task_db,
        List.find?_cons_of_neg _ (by simp [ha])]
      exact ih t h

/-- Looking up any other id after the UPDATE sees exactly the old store. -/
theorem get_applyUpdate_other (task_id : Int) (field : String) (v : FieldValue)
    (other_id : Int) (hne : other_id ≠ task_id) :
    ∀ store : List Task,
      get_task_db (applyUpdate store task_id field v) other_id =
        get_task_db store other_id := by
  intro store
  induction store with
  | nil => rfl
  | cons a l ih =>
    by_cases ha : a.id = task_id
    · have hao : ¬ a.id = other_id := by rw [ha]; exact fun h => hne h.symm
      rw [applyUpdate, List.map_cons, if_pos ha, get_task_db,
        List.find?_cons_of_neg _ (by simp [setField_id, ha]; exact fun h => hne h.symm),
        get_task_db, List.find?_cons_of_neg _ (by simp [hao])]
      exact ih
    · rw [applyUpdate, List.map_cons, if_neg ha]
      by_cases hao : a.id = other_id
      · rw [get_task_db, List.find?_cons_of_pos _ (by simp [hao]),
          get_task_db, List.find?_cons_of_pos _ (by simp [hao])]
      · rw [get_task_db, List.find?_cons_of_neg _ (by simp [hao]),
          get_task_db, List.find?_cons_of_neg _ (by simp [hao])]
        exact ih

/-- A per-matching-record map is the identity when no record's id matches. -/
theorem map_noop (task_id : Int) (g : Task → Task) :
    ∀ store : List Task, (∀ t ∈ store, t.id ≠ task_id) →
      store.map (fun t => if t.id = task_id then g t else t) = store := by
  intro store
  induction store with
  | nil => intro _; rfl
  | cons a l ih =>
    intro habs
    rw [List.map_cons, if_neg (habs a (List.mem_cons_self a l)),
      ih (fun t ht => habs t (List.mem_cons_of_mem a ht))]

/-- C3: for every positive n, the parser maps the decimal string of n to
n; with optional whitespace and a d/day/days unit to n; with a
w/week/weeks unit to 7n; with a m/month/months unit to 30n. The matching
is case-insensitive with surrounding whitespace trimmed: the hypotheses
constrain only the input's stripped, lowercased form. -/
theorem parse_frequency_grammar (n : Nat) (hn : 0 < n) (s : String)
    (ws : List Char) (hws : ∀ c ∈ ws, isPySpace c = true) :
    (stripLower s = natDigits n → parse_frequency_to_days s = some n) ∧
    (∀ u ∈ (["d", "day", "days"] : List String),
      stripLower s = natDigits n ++ ws ++ u.data →
      parse_frequency_to_days s = some n) ∧
    (∀ u ∈ (["w", "week", "weeks"] : List String),
      stripLower s = natDigits n ++ ws ++ u.data →
      parse_frequency_to_days s = some (7 * n)) ∧
    (∀ u ∈ (["m", "month", "months"] : List String),
      stripLower s = natDigits n ++ ws ++ u.data →
      parse_frequency_to_days s = some (30 * n)) := by
  obtain ⟨hne, hfacts, hval⟩ := natDigits_spec n
  have hdig : ∀ c ∈ natDigits n, c.isDigit = true := fun c hc => (hfacts c hc).1
  refine ⟨?_, ?_, ?_, ?_⟩
  · intro hstrip
    rw [parse_frequency_to_days, hstrip, parseFreqCore_digits _ hne hdig, hval]
  · intro u hu hstrip
    simp only [List.mem_cons, List.not_mem_nil, or_false] at hu
    rw [parse_frequency_to_days, hstrip]
    rcases hu with rfl | rfl | rfl
    · rw [parseFreqCore_canon _ ws _ hne hdig hws 'd' [] (by decide)
        (by decide) (by decide)]
      show some (digitsVal (natDigits n)) = some n
      rw [hval]
    · rw [parseFreqCore_canon _ ws _ hne hdig hws 'd' ['a', 'y'] (by decide)
        (by decide) (by decide)]
      show some (digitsVal (natDigits n)) = some n
      rw [hval]
    · rw [parseFreqCore_canon _ ws _ hne hdig hws 'd' ['a', 'y', 's'] (by decide)
        (by decide) (by decide)]
      show some (digitsVal (natDigits n)) = some n
      rw [hval]
  · intro u hu hstrip
    simp only [List.mem_cons, List.not_mem_nil, or_false] at hu
    rw [parse_frequency_to_days, hstrip]
    rcases hu with rfl | rfl | rfl
    · rw [parseFreqCore_canon _ ws _ hne hdig hws 'w' [] (by decide)
        (by decide) (by decide)]
      show some (digitsVal (natDigits n) * 7) = some (7 * n)
      rw [hval, Nat.mul_comm]
    · rw [parseFreqCore_canon _ ws _ hne hdig hws 'w' ['e', 'e', 'k'] (by decide)
        (by decide) (by decide)]
      show some (digitsVal (natDigits n) * 7) = some (7 * n)
      rw [hval, Nat.mul_comm]
    · rw [parseFreqCore_canon _ ws _ hne hdig hws 'w' ['e', 'e', 'k', 's'] (by decide)
        (by decide) (by decide)]
      show some (digitsVal (natDigits n) * 7) = some (7 * n)
      rw [hval, Nat.mul_comm]
  · intro u hu hstrip
    simp only [List.mem_cons, List.not_mem_nil, or_false] at hu
    rw [parse_frequency_to_days, hstrip]
    rcases hu with rfl | rfl | rfl
    · rw [parseFreqCore_canon _ ws _ hne hdig hws 'm' [] (by decide)
        (by decide) (by decide)]
      show some (digitsVal (natDigits n) * 30) = some (30 * n)
      rw [hval, Nat.mul_comm]
    · rw [parseFreqCore_canon _ ws _ hne hdig hws 'm' ['o', 'n', 't', 'h'] (by decide)
        (by decide) (by decide)]
      show some (digitsVal (natDigits n) * 30) = some (30 * n)
      rw [hval, Nat.mul_comm]
    · rw [parseFreqCore_canon _ ws _ hne hdig hws 'm' ['o', 'n', 't', 'h', 's'] (by decide)
        (by decide) (by decide)]
      show some (digitsVal (natDigits n) * 30) = some (30 * n)
      rw [hval, Nat.mul_comm]

/-- Witness for C3: the inputs "3", "3 d", " 3W " and "3m" at n = 3, with
a one-space whitespace run. -/
theorem parse_frequency_grammar_witness :
    parse_frequency_to_days "3" = some 3 ∧
    parse_frequency_to_days "3 d" = some 3 ∧
    parse_frequency_to_days " 3W " = some (7 * 3) ∧
    parse_frequency_to_days "3m" = some (30 * 3) := by
  have h3 := parse_frequency_grammar 3 (by decide) "3" [] (by simp)
  have hd := parse_frequency_grammar 3 (by decide) "3 d" [' '] (by decide)
  have hw := parse_frequency_grammar 3 (by decide) " 3W " [] (by simp)
  have hm := parse_frequency_grammar 3 (by decide) "3m" [] (by simp)
  refine ⟨h3.1 (by decide), hd.2.1 "d" (by decide) (by decide),
    hw.2.2.1 "w" (by decide) (by decide), hm.2.2.2 "m" (by decide) (by decide)⟩

/-- C10: the parser accepts "0", "0d", "0w" and "0m", returning 0, so it
does not enforce the positive-frequency invariant; a frequency of 0 makes
a task whose last_done is the present instant due immediately. -/
theorem parse_frequency_zero :
    parse_frequency_to_days "0" = some 0 ∧
    parse_frequency_to_days "0d" = some 0 ∧
    parse_frequency_to_days "0w" = some 0 ∧
    parse_frequency_to_days "0m" = some 0 ∧
    ∀ created_at : Int, is_due created_at 0 created_at = true := by
  refine ⟨by decide, by decide, by decide, by decide, ?_⟩
  intro created_at
  simp [is_due, next_due]

/-- C6: the parser fails for every input outside the accepted grammars — a
successful parse certifies membership of the stripped lowercased input in
the grammar — and in particular it fails on "", "abc", "-1" and "1x", and
never returns a value for a negative decimal string. -/
theorem parse_frequency_rejects :
    parse_frequency_to_days "" = none ∧
    parse_frequency_to_days "abc" = none ∧
    parse_frequency_to_days "-1" = none ∧
    parse_frequency_to_days "1x" = none ∧
    (∀ k : Nat, parse_frequency_to_days (String.mk ('-' :: natDigits k)) = none) ∧
    (∀ (text : String) (n : Nat),
      parse_frequency_to_days text = some n → specGrammar (stripLower text) n) := by
  refine ⟨by decide, by decide, by decide, by decide, ?_, ?_⟩
  · intro k
    cases hp : parse_frequency_to_days (String.mk ('-' :: natDigits k)) with
    | none => rfl
    | some n =>
      exfalso
      have hg : specGrammar (stripLower (String.mk ('-' :: natDigits k))) n :=
        parseFreqCore_complete _ n hp
      have hchars : ∀ c ∈ '-' :: natDigits k,
          isPySpace c = false ∧ Char.toLower c = c := by
        intro c hc
        rcases List.mem_cons.mp hc with rfl | hc
        · exact ⟨by decide, by decide⟩
        · have hf := (natDigits_spec k).2.1 c hc
          exact ⟨hf.2.2, hf.2.1⟩
      have hsl : stripLower (String.mk ('-' :: natDigits k)) = '-' :: natDigits k := by
        unfold stripLower
        rw [show (String.mk ('-' :: natDigits k)).data = '-' :: natDigits k from rfl,
          pyStrip_eq_self _ (fun c hc => (hchars c hc).1),
          map_id_of _ _ (fun c hc => (hchars c hc).2)]
      rw [hsl] at hg
      rcases hg with ⟨_, hall, _⟩ | ⟨ds, ws, u, heq, hne, hdig, _, _⟩
      · have := hall '-' (List.mem_cons_self _ _)
        exact absurd this (by decide)
      · cases ds with
        | nil => exact hne rfl
        | cons c rest =>
          rw [List.cons_append, List.cons_append] at heq
          injection heq with hc _
          have hcd := hdig c (List.mem_cons_self c rest)
          rw [← hc] at hcd
          exact absurd hcd (by decide)
  · intro text n h
    exact parseFreqCore_complete _ n h

/-- Witness for C6: the successful parse of "2w" certifies that its
stripped lowercased form lies in the accepted grammar with value 14. -/
theorem parse_frequency_rejects_witness :
    specGrammar (stripLower "2w") 14 :=
  parse_frequency_rejects.2.2.2.2.2 "2w" 14 (by decide)

/-- C7: update_task_field mutates at most the named column, that column
being one of name, frequency_days, room, notes, points, and fails with
ValueError for any other field name, before touching the store. -/
theorem update_task_field_spec (store : List Task) (task_id : Int)
    (field : String) (v : FieldValue) :
    (field ∉ allowedTaskFields →
      update_task_field store task_id field v = .error "Invalid field") ∧
    (field ∈ allowedTaskFields →
      update_task_field store task_id field v =
        .ok (applyUpdate store task_id field v) ∧
      List.Forall₂ (agreesExcept task_id field) store
        (applyUpdate store task_id field v)) := by
  constructor
  · intro h
    rw [update_task_field, if_pos h]
  · intro h
    refine ⟨by rw [update_task_field, if_neg (by simp [h])], ?_⟩
    exact forall₂_map_self _ store (fun t _ => agreesExcept_apply task_id v t field h)

/-- Witness for C7: updating the notes column of a concrete one-task store
succeeds and leaves every other column in place, while a bogus field name
is rejected. -/
theorem update_task_field_spec_witness :
    update_task_field [demoTask] 100 "notes" (.str "x") =
      .ok (applyUpdate [demoTask] 100 "notes" (.str "x")) ∧
    update_task_field [demoTask] 100 "priority" (.str "x") =
      .error "Invalid field" := by
  have h := update_task_field_spec [demoTask] 100 "notes" (FieldValue.str "x")
  have h2 := update_task_field_spec [demoTask] 100 "priority" (FieldValue.str "x")
  exact ⟨(h.2 (by decide)).1, h2.1 (by decide)⟩

/-- C8: updating an existing task's notes makes a later get return the new
notes while its other columns, and every other task in the store, are
unchanged. -/
theorem update_notes_frame (store : List Task) (task_id : Int)
    (new_notes : String) (t : Task)
    (hget : get_task_db store task_id = some t) :
    update_task_field store task_id "notes" (.str new_notes) =
      .ok (applyUpdate store task_id "notes" (.str new_notes)) ∧
    get_task_db (applyUpdate store task_id "notes" (.str new_notes)) task_id =
      some { t with notes := new_notes } ∧
    (∀ other_id : Int, other_id ≠ task_id →
      get_task_db (applyUpdate store task_id "notes" (.str new_notes)) other_id =
        get_task_db store other_id) := by
  refine ⟨by rw [update_task_field, if_neg (by simp [allowedTaskFields])], ?_, ?_⟩
  · exact get_applyUpdate_self task_id "notes" (.str new_notes) store t hget
  · intro other_id hne
    exact get_applyUpdate_other task_id "notes" (.str new_notes) other_id hne store

/-- Witness for C8: a concrete one-task store, its notes updated; the
lookup of its id sees the new notes and a lookup of an absent id is
unchanged. -/
theorem update_notes_frame_witness :
    get_task_db (applyUpdate [demoTask] 100 "notes" (.str "scrub")) 100 =
      some { demoTask with notes := "scrub" } ∧
    get_task_db (applyUpdate [demoTask] 100 "notes" (.str "scrub")) 101 =
      get_task_db [demoTask] 101 := by
  have h := update_notes_frame [demoTask] 100 "scrub" demoTask (by decide)
  exact ⟨h.2.1, h.2.2 101 (by decide)⟩

/-- C9: at the store layer, update_task_last_done, update_task_field with
an allowed field, and remove_task_db called with an id no task holds raise
nothing and leave the store exactly as it was. -/
theorem absent_id_noop (store : List Task) (task_id : Int) (when : Int)
    (field : String) (v : FieldValue)
    (habs : ∀ t ∈ store, t.id ≠ task_id) (hf : field ∈ allowedTaskFields) :
    update_task_last_done store task_id when = store ∧
    update_task_field store task_id field v = .ok store ∧
    remove_task_db store task_id = store := by
  refine ⟨map_noop task_id _ store habs, ?_, ?_⟩
  · rw [update_task_field, if_neg (by simp [hf]), applyUpdate,
      map_noop task_id _ store habs]
  · rw [remove_task_db]
    induction store with
    | nil => rfl
    | cons a l ih =>
      rw [List.filter_cons_of_pos (by simp [habs a (List.mem_cons_self a l)]),
        ih (fun t ht => habs t (List.mem_cons_of_mem a ht))]

/-- Witness for C9: the three operations aimed at id 555, absent from a
concrete one-task store, all return the store unchanged. -/
theorem absent_id_noop_witness :
    update_task_last_done [demoTask] 555 7 = [demoTask] ∧
    update_task_field [demoTask] 555 "notes" (.str "x") = .ok [demoTask] ∧
    remove_task_db [demoTask] 555 = [demoTask] :=
  absent_id_noop [demoTask] 555 7 "notes" (FieldValue.str "x")
    (by decide) (by decide)

end CleanBot
